import Mathlib

/-!
Verification of the powerfit `structure.py` file codec and `Structure` entity.

The Python source is shallowly embedded: text lines are `List Char`, Python
machine floats are modelled as `ℚ`, Python `int` as `ℤ`, fallible operations
(`int(...)`, `float(...)`, single-character indexing) return `Except`/`Option`,
and the columnar `defaultdict(list)` atom table is modelled row-wise as
`List Atom` (all per-line appends in the source happen together, so the row
and column views are interchangeable).
-/

/-- Text content of one line, as Python sees it (a sequence of characters). -/
abbrev Str := List Char

/-- Whitespace characters recognised by Python's `str.strip()` (the subset
that can occur in the fixed-width files handled here). -/
def isWsChar (c : Char) : Bool :=
  c == ' ' || c == '\t' || c == '\n' || c == '\r'

/-- Python `s.strip()`: remove leading and trailing whitespace. -/
def strip (s : Str) : Str :=
  ((s.dropWhile isWsChar).reverse.dropWhile isWsChar).reverse

/-- Python slice `s[a:b]` for `0 ≤ a ≤ b` (clamped to the string length). -/
def pySlice (s : Str) (a b : Nat) : Str :=
  (s.drop a).take (b - a)

/-- Python slice `s[-n:]`: the last `n` characters (the whole string when
shorter than `n`). -/
def pyTakeLast (s : Str) (n : Nat) : Str :=
  s.drop (s.length - n)

/-- Errors raised by the Python code that the embedding tracks:
`malformed` for `ValueError` from `int(...)`/`float(...)` on a non-numeric
column, `indexError` for out-of-range single-character indexing. -/
inductive PErr where
  | malformed
  | indexError
deriving DecidableEq

instance {ε α : Type} [DecidableEq ε] [DecidableEq α] : DecidableEq (Except ε α) := fun
  | .ok a, .ok b =>
      if h : a = b then .isTrue (by rw [h]) else .isFalse (by simp [h])
  | .ok _, .error _ => .isFalse (by simp)
  | .error _, .ok _ => .isFalse (by simp)
  | .error e, .error f =>
      if h : e = f then .isTrue (by rw [h]) else .isFalse (by simp [h])

/-- Python `s[n]` for a single index: a character, or `IndexError`. -/
def pyIndex (s : Str) (n : Nat) : Except PErr Char :=
  match s.drop n with
  | [] => .error .indexError
  | c :: _ => .ok c

/-- Numeric value of a decimal digit character. -/
def digitVal (c : Char) : Nat := c.toNat - '0'.toNat

/-- Value of a nonempty string of decimal digits. -/
def digitsToNat (s : Str) : Nat :=
  s.foldl (fun acc c => 10 * acc + digitVal c) 0

/-- Split a leading `+`/`-` sign off a string; `true` means negative. -/
def parseSign : Str → Bool × Str
  | '+' :: r => (false, r)
  | '-' :: r => (true, r)
  | s => (false, s)

/-- Python `int(s)` on the strings occurring in fixed-width PDB columns:
strip whitespace, optional sign, then one or more decimal digits;
anything else is a `ValueError`. -/
def parseInt (s : Str) : Option Int :=
  let t := strip s
  let (neg, u) := parseSign t
  if !u.isEmpty && u.all Char.isDigit then
    let v : Int := digitsToNat u
    some (if neg then -v else v)
  else none

/-- Apply a sign flag to a rational value. -/
def applySign (neg : Bool) (v : ℚ) : ℚ := if neg then -v else v

/-- Python `float(s)` on the decimal forms occurring in fixed-width PDB
columns: strip whitespace, optional sign, then digits with an optional
fractional part (`12`, `12.`, `12.5`, `.5`); anything else is a
`ValueError`.  The value is modelled exactly as a rational. -/
def parseFloat (s : Str) : Option ℚ :=
  let t := strip s
  let (neg, u) := parseSign t
  let ds := u.takeWhile Char.isDigit
  match u.dropWhile Char.isDigit with
  | [] => if ds.isEmpty then none else some (applySign neg (mkRat (digitsToNat ds) 1))
  | '.' :: fs =>
      if fs.all Char.isDigit && !(ds.isEmpty && fs.isEmpty) then
        some (applySign neg
          (mkRat (digitsToNat ds * 10 ^ fs.length + digitsToNat fs) (10 ^ fs.length)))
      else none
  | _ => none

/-- `int(...)` in the `Except` monad. -/
def parseIntE (s : Str) : Except PErr Int :=
  match parseInt s with
  | some v => .ok v
  | none => .error .malformed

/-- `float(...)` in the `Except` monad. -/
def parseFloatE (s : Str) : Except PErr ℚ :=
  match parseFloat s with
  | some v => .ok v
  | none => .error .malformed

/-- The `'ATOM  '` record tag. -/
def ATOMrec : Str := "ATOM  ".data
/-- The `'HETATM'` record tag. -/
def HETATMrec : Str := "HETATM".data
/-- The `'MODEL '` record tag. -/
def MODELrec : Str := "MODEL ".data

/-- One row of the columnar PDB table built by `parse_pdb` (the
`defaultdict(list)` in the source, viewed row-wise). -/
structure Atom where
  model : Int
  record : Str
  id : Int
  name : Str
  alt : Char
  resn : Str
  chain : Char
  resi : Int
  i : Char
  x : ℚ
  y : ℚ
  z : ℚ
  q : ℚ
  b : ℚ
  e : Str
  charge : Str
deriving DecidableEq

/-- The element-inference loop of `parse_pdb`:
`for e in name: if e.isalpha(): break`.  `e` is assigned each character in
turn; the loop stops at the first alphabetic one, and if none is alphabetic
`e` is left holding the last character (or the initial value for an empty
name). -/
def inferLoop : Str → Str → Str
  | [], e => e
  | c :: cs, _ => if c.isAlpha then [c] else inferLoop cs [c]

/-- Element determination of `parse_pdb`: the stripped element column when
nonempty, otherwise the result of the inference loop over the stripped atom
name (starting from the empty string `e` already holds). -/
def elemOf (rawE name : Str) : Str :=
  if rawE.isEmpty then inferLoop name rawE else rawE

/-- Field extraction for one `ATOM  `/`HETATM` line of `parse_pdb`, in source
statement order (so the first failing numeric column aborts the line exactly
as in Python).  The model number is a loop variable of the caller and is
patched in by `parseLineStep`; it is initialised to 1 here. -/
def parseAtomLine (line : Str) : Except PErr Atom := do
  let record := pySlice line 0 6
  let id ← parseIntE (pySlice line 6 11)
  let name := strip (pySlice line 12 16)
  let alt ← pyIndex line 16
  let resn := strip (pySlice line 17 20)
  let chain ← pyIndex line 21
  let resi ← parseIntE (pySlice line 22 26)
  let i ← pyIndex line 26
  let x ← parseFloatE (pySlice line 30 38)
  let y ← parseFloatE (pySlice line 38 46)
  let z ← parseFloatE (pySlice line 46 54)
  let q ← parseFloatE (pySlice line 54 60)
  let b ← parseFloatE (pySlice line 60 66)
  let e := elemOf (strip (pySlice line 76 78)) name
  let charge := strip (pySlice line 78 80)
  pure { model := 1, record, id, name, alt, resn, chain, resi, i,
         x, y, z, q, b, e, charge }

/-- One iteration of the `for line in f` loop of `parse_pdb`: dispatch on the
6-character record tag, producing an optional atom row and the updated
current model number. -/
def parseLineStep (m : Int) (line : Str) : Except PErr (Option Atom × Int) :=
  let record := pySlice line 0 6
  if record = ATOMrec ∨ record = HETATMrec then do
    let a ← parseAtomLine line
    pure (some { a with model := m }, m)
  else if record = MODELrec then do
    let m' ← parseIntE (pySlice line 10 14)
    pure (none, m')
  else
    pure (none, m)

/-- The `for line in f` loop of `parse_pdb`, threading the current model
number.  The second component records whether `f.close()` was executed: the
source closes the handle only after the loop finishes, so an exception that
propagates out of the loop skips the close. -/
def parsePdbGo : List Str → Int → Except PErr (List Atom) × Bool
  | [], _ => (.ok [], true)
  | line :: rest, m =>
    match parseLineStep m line with
    | .error err => (.error err, false)
    | .ok (oa, m') =>
      match parsePdbGo rest m' with
      | (.ok t, closed) => (.ok (oa.toList ++ t), closed)
      | (.error err, closed) => (.error err, closed)

/-- `parse_pdb`: parse a sequence of lines with initial model number 1.
Returns the table (or the propagated error) together with the flag telling
whether the input handle was closed. -/
def parse_pdb (lines : List Str) : Except PErr (List Atom) × Bool :=
  parsePdbGo lines 1

/-! ### PDB writer (`tofile`) -/

/-- The atom-name adjustment performed by the writer before formatting:
`if len(e) == 1 and len(name) != 4: line_data[2] = ' ' + name`. -/
def lineDataOf (a : Atom) : Atom :=
  if a.e.length = 1 ∧ a.name.length ≠ 4 then { a with name := ' ' :: a.name } else a

/-- One output line of the writer, carrying the data the corresponding
format string is applied to. -/
inductive OutLine where
  | modelLine (n : Int)
  | terLine (id : Int) (resn : Str) (chain : Char) (resi : Int) (i : Char)
  | atomLine (a : Atom)
  | endmdlLine
  | endLine
deriving DecidableEq

/-- The inner atom loop of the writer for one model block, after its first
atom: `prevChain` is the `prev_chain` state variable and `prevAtom` the atom
at `index - 1`.  When the chain changes a `TER` line is written from the
previous atom's data (serial + 1) provided that atom's record is `ATOM  `,
and `prev_chain` is updated. -/
def blockLoop : Char → Atom → List Atom → List OutLine
  | _, _, [] => []
  | prevChain, prevAtom, a :: rest =>
    if prevChain ≠ a.chain then
      (if prevAtom.record = ATOMrec then
        [OutLine.terLine (prevAtom.id + 1) prevAtom.resn prevAtom.chain
          prevAtom.resi prevAtom.i]
      else [])
        ++ OutLine.atomLine (lineDataOf a) :: blockLoop a.chain a rest
    else
      OutLine.atomLine (lineDataOf a) :: blockLoop prevChain a rest

/-- Write one model block: `prev_chain` starts as the chain of the block's
first atom, so no `TER` can precede it. -/
def writeBlock : List Atom → List OutLine
  | [] => []
  | a :: rest => OutLine.atomLine (lineDataOf a) :: blockLoop a.chain a rest

/-- `nmodels = len(set(pdb['model']))`: the number of distinct model values. -/
def nmodelsOf (t : List Atom) : Nat := (t.map (·.model)).dedup.length

/-- The writer `tofile`: split the table into `nmodels` contiguous blocks of
`natoms / nmodels` atoms; each block is wrapped in `MODEL`/`ENDMDL` lines
only when `nmodels > 1`; one `END` line always closes the file.  (Python
raises `ZeroDivisionError` on an empty table; every theorem below keeps the
table nonempty.) -/
def tofileLines (t : List Atom) : List OutLine :=
  let nmodels := nmodelsOf t
  let npm := t.length / nmodels
  ((List.range nmodels).map (fun (nmodel : Nat) =>
    (if 1 < nmodels then [OutLine.modelLine ((nmodel : Int) + 1)] else [])
      ++ writeBlock ((t.drop (nmodel * npm)).take npm)
      ++ (if 1 < nmodels then [OutLine.endmdlLine] else []))).flatten
    ++ [OutLine.endLine]

/-! ### The fixed-width formatting used by the writer's format strings -/

/-- Right-justify in a field of width `w` (Python `'{:>Nd}'` padding; a
longer string is kept whole). -/
def padLeft (w : Nat) (s : Str) : Str := List.replicate (w - s.length) ' ' ++ s

/-- Left-justify in a field of width `w` (Python `'{:Ns}'`/`'{:<Ns}'`). -/
def padRight (w : Nat) (s : Str) : Str := s ++ List.replicate (w - s.length) ' '

/-- Decimal digits of a natural number. -/
def natDigits (n : Nat) : Str := Nat.toDigits 10 n

/-- Decimal rendering of an integer, with a `-` sign when negative. -/
def intStr (n : Int) : Str :=
  if n < 0 then '-' :: natDigits n.natAbs else natDigits n.natAbs

/-- Python `'{:>Nd}'.format(n)`. -/
def fmtIntPad (w : Nat) (n : Int) : Str := padLeft w (intStr n)

/-- Three decimal digits, zero-padded on the left. -/
def pad3 (n : Nat) : Str :=
  List.replicate (3 - (natDigits n).length) '0' ++ natDigits n

/-- Python `'{:8.3f}'.format(v)`: the value rounded to three decimals,
always printed with three decimals, right-justified in eight columns.  The
rounding `⌊v·1000 + 1/2⌋` is computed on the exact rational `v = p/q` as
the integer floor division `⌊(2000·p + q) / (2·q)⌋`. -/
def fmtF83 (v : ℚ) : Str :=
  let m : Int := (2000 * v.num + (v.den : Int)).fdiv (2 * (v.den : Int))
  padLeft 8 ((if m < 0 then ['-'] else [])
    ++ natDigits (m.natAbs / 1000) ++ '.' :: pad3 (m.natAbs % 1000))

/-- The four name columns produced by the writer for an atom with element
`e` and stored name `name`: the conditional one-space indent followed by
`'{:4s}'` padding. -/
def fmtName (e name : Str) : Str :=
  padRight 4 (if e.length = 1 ∧ name.length ≠ 4 then ' ' :: name else name)

/-- A well-formed single-model PDB atom line: it parses as an `ATOM  ` or
`HETATM` record, and its name, residue-number and coordinate columns are
written in the canonical layout the writer itself produces (names placed by
the 1-letter/2-letter element convention, integers right-justified,
coordinates in `%8.3f` form). -/
def wfAtomLine (l : Str) : Bool :=
  match parseAtomLine l with
  | .error _ => false
  | .ok a =>
    (pySlice l 0 6 == ATOMrec || pySlice l 0 6 == HETATMrec)
      && pySlice l 12 16 == fmtName a.e a.name
      && pySlice l 22 26 == fmtIntPad 4 a.resi
      && pySlice l 30 38 == fmtF83 a.x
      && pySlice l 38 46 == fmtF83 a.y
      && pySlice l 46 54 == fmtF83 a.z

/-! ### `Structure.rmsd` and `Structure.coor` -/

/-- `Structure.coor` as an ordered list of per-atom coordinate triples.
(The source stacks the zipped position vectors axis-major; the elementwise
difference, square and overall mean used by `rmsd` are unchanged by that
transposition, so the atom-major view is used here.) -/
def coorOf (t : List Atom) : List (ℚ × ℚ × ℚ) :=
  t.map (fun a => (a.x, a.y, a.z))

/-- Squared per-axis coordinate differences of one atom pair:
`Δx² + Δy² + Δz²`. -/
def sqDiff (p q : ℚ × ℚ × ℚ) : ℚ :=
  (p.1 - q.1) ^ 2 + (p.2.1 - q.2.1) ^ 2 + (p.2.2 - q.2.2) ^ 2

/-- Total sum `S` of the squared per-axis differences over all atoms. -/
def sqDiffSum (P Q : List (ℚ × ℚ × ℚ)) : ℚ :=
  (List.zipWith sqDiff P Q).sum

/-- The quantity under the square root in `Structure.rmsd`:
`((self.coor - structure.coor) ** 2).mean() * 3`, where the mean runs over
all `3 · natoms` scalar entries of the difference array. -/
def rmsdSq (P Q : List (ℚ × ℚ × ℚ)) : ℚ :=
  sqDiffSum P Q / (3 * P.length) * 3

/-- The quantity under the square root in the claim's formula, written from
the spec's words: the total sum `S` divided by `3 · natoms`, with no further
scaling. -/
def rmsdSqClaim (P Q : List (ℚ × ℚ × ℚ)) : ℚ :=
  sqDiffSum P Q / (3 * P.length)

/-! ### Format dispatch (`Structure.fromfile` / `Structure.tofile`) -/

/-- The two parser back ends `fromfile` can dispatch to. -/
inductive FileFormat where
  | pdbFmt
  | cifFmt
deriving DecidableEq

/-- The error raised for an unrecognised format
(`IOError('Filetype not recognized.')`; the spec calls it
`UnsupportedFormat`). -/
inductive DispatchErr where
  | unsupportedFormat
deriving DecidableEq

/-- The extension dispatch of `Structure.fromfile`: the source tests
`fname[-3:]`, the last three characters of the file name. -/
def fromfileFormat (fname : Str) : Except DispatchErr FileFormat :=
  if pyTakeLast fname 3 = "pdb".data ∨ pyTakeLast fname 3 = "ent".data then
    .ok .pdbFmt
  else if pyTakeLast fname 3 = "cif".data then
    .ok .cifFmt
  else
    .error .unsupportedFormat

/-- The two writer back ends `Structure.tofile` can dispatch to. -/
inductive OutKind where
  | pdbOut
  | mmcifOut
deriving DecidableEq

/-- The output dispatch of `Structure.tofile`: an `ok` value hands the file
over to the corresponding writer, the `error` is raised before anything is
written, so no (partial) output is produced. -/
def tofileDispatch (outtype : Str) : Except DispatchErr OutKind :=
  if outtype = "pdb".data then .ok .pdbOut
  else if outtype = "mmcif".data then .ok .mmcifOut
  else .error .unsupportedFormat

/-- Split a line on `.` characters (Python `line.split('.')`). -/
def splitOnDot : Str → List Str
  | [] => [[]]
  | c :: rest =>
    match splitOnDot rest with
    | [] => [[]]
    | h :: t => if c = '.' then [] :: h :: t else (c :: h) :: t

/-- The file extension in the claim's sense: the text after the last dot of
the name, or `none` for a name without a dot. -/
def extensionOf (fname : Str) : Option Str :=
  if '.' ∈ fname then some ((splitOnDot fname).getLastD [])
  else none

/-! ### `parse_mmcif` -/

/-- Helper for `splitWs`: `acc` holds the characters of the current word in
reverse. -/
def splitWsGo : Str → Str → List Str
  | [], acc => if acc.isEmpty then [] else [acc.reverse]
  | c :: rest, acc =>
    if isWsChar c then
      if acc.isEmpty then splitWsGo rest [] else acc.reverse :: splitWsGo rest []
    else splitWsGo rest (c :: acc)

/-- Python `line.split()`: split on whitespace runs, discarding empties. -/
def splitWs (s : Str) : List Str := splitWsGo s []

/-- The key declared by a `_atom_site.` header line:
`line.split('.')[1].strip()`. -/
def mmcifKey (line : Str) : Str := strip ((splitOnDot line).getD 1 [])

/-- `atom_site[key] = []` on the ordered mapping: reassigning an existing
key resets its list in place, a new key is appended at the end. -/
def mmcifSetKey (d : List (Str × List Str)) (k : Str) : List (Str × List Str) :=
  if d.any (fun p => p.1 = k) then
    d.map (fun p => if p.1 = k then (p.1, ([] : List Str)) else p)
  else d ++ [(k, [])]

/-- `for key, word in zip(atom_site, words): atom_site[key].append(word)`:
append one token to each of the first `min` keys, in declaration order. -/
def mmcifAppendRow : List (Str × List Str) → List Str → List (Str × List Str)
  | d, [] => d
  | [], _ => []
  | (k, vs) :: d, w :: ws => (k, vs ++ [w]) :: mmcifAppendRow d ws

/-- The `for line in f` loop of `parse_mmcif`: both `if` tests are applied
to every line. -/
def parseMmcifGo : List Str → List (Str × List Str) → List (Str × List Str)
  | [], d => d
  | line :: rest, d =>
    let d1 := if "_atom_site.".data.isPrefixOf line then
        mmcifSetKey d (mmcifKey line) else d
    let d2 := if "ATOM".data.isPrefixOf line then
        mmcifAppendRow d1 (splitWs line) else d1
    parseMmcifGo rest d2

/-- `parse_mmcif`: the loop runs inside `with infile as f`, which closes the
handle on every exit path, and the loop body itself cannot raise, so the
parse always completes with the handle-closed flag `true`. -/
def parse_mmcif (lines : List Str) : List (Str × List Str) × Bool :=
  (parseMmcifGo lines [], true)

/-! ### Aliasing model for `duplicate`/`rotate`

`Structure.__prot` is a reference into a heap of parsed-structure states;
a state is modelled by the atom table it holds.  `duplicate` performs
`protdupe = self.__prot.copy(); structure = copy(self);
structure.prot = protdupe`, and `rotate` mutates the referenced state in
place through `matrix_transform`. -/

/-- A 3×3 transformation matrix, row-wise. -/
abbrev Mat3 := (ℚ × ℚ × ℚ) × (ℚ × ℚ × ℚ) × (ℚ × ℚ × ℚ)

/-- Apply a 3×3 matrix to a coordinate triple. -/
def applyMat (R : Mat3) (p : ℚ × ℚ × ℚ) : ℚ × ℚ × ℚ :=
  (R.1.1 * p.1 + R.1.2.1 * p.2.1 + R.1.2.2 * p.2.2,
   R.2.1.1 * p.1 + R.2.1.2.1 * p.2.1 + R.2.1.2.2 * p.2.2,
   R.2.2.1 * p.1 + R.2.2.2.1 * p.2.1 + R.2.2.2.2 * p.2.2)

/-- Modelled from the spec: the external library's `matrix_transform`
(the "whole-structure rigid transform" contract of spec §4.4) transforms
every atom coordinate by the 3×3 matrix. -/
def matrixTransform (R : Mat3) (t : List Atom) : List Atom :=
  t.map (fun a =>
    let p := applyMat R (a.x, a.y, a.z)
    { a with x := p.1, y := p.2.1, z := p.2.2 })

/-- The heap of parsed-structure states; a `Structure`'s `__prot` attribute
is an index into it. -/
abbrev ProtHeap := List (List Atom)

/-- A `Structure` object: its `__prot` reference. -/
structure StructRef where
  prot : Nat
deriving DecidableEq

/-- Modelled from the spec: the external library's `copy()` (spec §3: a
duplicate "yields an independent deep copy with no shared storage with the
source"), so it allocates a fresh heap cell holding an equal table. -/
def protCopy (h : ProtHeap) (p : Nat) : ProtHeap × Nat :=
  (h ++ [h.getD p []], h.length)

/-- `Structure.duplicate`: copy the prot state, shallow-copy the wrapper,
and point the new wrapper at the copied state. -/
def duplicateS (h : ProtHeap) (s : StructRef) : ProtHeap × StructRef :=
  let c := protCopy h s.prot
  (c.1, ⟨c.2⟩)

/-- `Structure.rotate`: mutate the referenced prot state in place. -/
def rotateS (h : ProtHeap) (s : StructRef) (R : Mat3) : ProtHeap :=
  h.set s.prot (matrixTransform R (h.getD s.prot []))

/-! ### Helper definitions for the statements -/

/-- Is this output line a `MODEL` line? -/
def isModelL : OutLine → Bool
  | .modelLine _ => true
  | _ => false

/-- Is this output line an `ENDMDL` line? -/
def isEndmdlL : OutLine → Bool
  | .endmdlLine => true
  | _ => false

/-- Is this output line a `TER` line? -/
def isTerL : OutLine → Bool
  | .terLine _ _ _ _ _ => true
  | _ => false

/-- Is this output line the `END` line? -/
def isEndL : OutLine → Bool
  | .endLine => true
  | _ => false

/-- The atom data of an `ATOM`/`HETATM` output line, if any. -/
def atomOf : OutLine → Option Atom
  | .atomLine a => some a
  | _ => none

/-- The claim's characterisation of `TER` emission, following its words:
walking the block with the actual previous atom at hand, a `TER` line
appears exactly where the chain id differs from the previous atom's chain id
and the previous record is `ATOM` (not `HETATM`), carrying the previous
atom's serial plus one and its residue name, chain id, residue number and
insertion code. -/
def blockSpecGo (prev : Atom) : List Atom → List OutLine
  | [] => []
  | a :: rest =>
    (if a.chain ≠ prev.chain ∧ prev.record = ATOMrec then
      [OutLine.terLine (prev.id + 1) prev.resn prev.chain prev.resi prev.i]
    else [])
      ++ OutLine.atomLine (lineDataOf a) :: blockSpecGo a rest

/-- Top level of the claim's `TER` characterisation: no `TER` can precede
the first atom of a block. -/
def writeBlockSpec : List Atom → List OutLine
  | [] => []
  | a :: rest => OutLine.atomLine (lineDataOf a) :: blockSpecGo a rest

/-- Round-trip field agreement between a written atom row `o` (as placed in
the fixed layout by the writer's format string) and the original input line
`l`: the four name columns, the chain column, the four residue-number
columns and the three eight-column coordinate fields coincide. -/
def fieldsMatch (o : Atom) (l : Str) : Prop :=
  padRight 4 o.name = pySlice l 12 16
    ∧ [o.chain] = pySlice l 21 22
    ∧ fmtIntPad 4 o.resi = pySlice l 22 26
    ∧ fmtF83 o.x = pySlice l 30 38
    ∧ fmtF83 o.y = pySlice l 38 46
    ∧ fmtF83 o.z = pySlice l 46 54

/-- A default atom row (only used to read off the value inside a parse
known to have succeeded). -/
def defaultAtom : Atom :=
  { model := 1, record := [], id := 0, name := [], alt := ' ', resn := [],
    chain := ' ', resi := 0, i := ' ', x := 0, y := 0, z := 0, q := 0, b := 0,
    e := [], charge := [] }

/-- The atom row of a successful `parseAtomLine`. -/
def forceAtom (l : Str) : Atom := ((parseAtomLine l).toOption).getD defaultAtom

/-! ### Concrete inputs used by the examples and witnesses -/

/-- A canonical 80-column `ATOM` line (CA of an alanine, chain A). -/
def exL1 : Str :=
  ("ATOM  " ++ "    1" ++ " " ++ " CA " ++ " " ++ "ALA" ++ " " ++ "A"
    ++ "   2" ++ " " ++ "   " ++ "  11.104" ++ "  13.207" ++ "   2.100"
    ++ "  1.00" ++ " 20.00" ++ "          " ++ " C" ++ "  ").data

/-- A second canonical `ATOM` line (id 2, chain A). -/
def exL2 : Str :=
  ("ATOM  " ++ "    2" ++ " " ++ " CB " ++ " " ++ "ALA" ++ " " ++ "A"
    ++ "   2" ++ " " ++ "   " ++ "  -1.500" ++ "   0.250" ++ "  99.000"
    ++ "  1.00" ++ " 20.00" ++ "          " ++ " C" ++ "  ").data

/-- A `MODEL` line selecting model number 3 (columns 11-14 hold the 3). -/
def exLmodel3 : Str := ("MODEL " ++ "    " ++ "   3").data

/-- An `ATOM` line whose serial column is not numeric: `int()` raises and
the parse aborts. -/
def exLbad : Str := "ATOM  abcde".data

/-- An `ATOM` line with a blank element column and name `" CA1"`. -/
def exLca1 : Str :=
  ("ATOM  " ++ "    1" ++ " " ++ " CA1" ++ " " ++ "ALA" ++ " " ++ "A"
    ++ "   2" ++ " " ++ "   " ++ "  11.104" ++ "  13.207" ++ "   2.100"
    ++ "  1.00" ++ " 20.00" ++ "          " ++ "  " ++ "  ").data

/-- An `ATOM` line with a blank element column and the non-alphabetic
name `"123"`. -/
def exL123 : Str :=
  ("ATOM  " ++ "    1" ++ " " ++ "123 " ++ " " ++ "ALA" ++ " " ++ "A"
    ++ "   2" ++ " " ++ "   " ++ "  11.104" ++ "  13.207" ++ "   2.100"
    ++ "  1.00" ++ " 20.00" ++ "          " ++ "  " ++ "  ").data

/-- Concrete atom row: CA, chain A, an `ATOM` record. -/
def exA1 : Atom :=
  { model := 1, record := ATOMrec, id := 1, name := "CA".data, alt := ' ',
    resn := "ALA".data, chain := 'A', resi := 2, i := ' ', x := 1, y := 2,
    z := 3, q := 1, b := 0, e := "C".data, charge := [] }

/-- Concrete atom row: id 2, chain A. -/
def exA2 : Atom := { exA1 with id := 2, resi := 3 }

/-- Concrete atom row: id 3, chain B. -/
def exB3 : Atom := { exA1 with id := 3, chain := 'B' }

/-- Concrete atom row in model 2 (for a two-model table). -/
def exM2 : Atom := { exA1 with model := 2, id := 2 }

/-- The identity 3×3 matrix doubled on the diagonal (a visibly non-trivial
transform for the duplication example). -/
def exMat : Mat3 := ((2, 0, 0), (0, 2, 0), (0, 0, 2))

/-- The claim's description of the no-alphabetic-character fallback: the
last character of the (stripped) name, or the empty string for an empty
name. -/
def lastCharElem : Str → Str
  | [] => []
  | name@(_ :: _) => [name.getLastD ' ']

/-! ## Helper lemmas -/

theorem bindE_ok {α β : Type} (x : Except PErr α) (f : α → Except PErr β) (b : β) :
    (x >>= f) = .ok b ↔ ∃ a, x = .ok a ∧ f a = .ok b := by
  cases x <;> simp [Bind.bind, Except.bind]

/-- Inversion of a successful `parseAtomLine`: every numeric/index column
parsed, and the fields of the atom are the parsed values. -/
theorem parseAtomLine_ok_elim (line : Str) (a : Atom)
    (h : parseAtomLine line = .ok a) :
    a.model = 1 ∧ a.record = pySlice line 0 6
      ∧ parseIntE (pySlice line 6 11) = .ok a.id
      ∧ a.name = strip (pySlice line 12 16)
      ∧ pyIndex line 16 = .ok a.alt
      ∧ a.resn = strip (pySlice line 17 20)
      ∧ pyIndex line 21 = .ok a.chain
      ∧ parseIntE (pySlice line 22 26) = .ok a.resi
      ∧ pyIndex line 26 = .ok a.i
      ∧ parseFloatE (pySlice line 30 38) = .ok a.x
      ∧ parseFloatE (pySlice line 38 46) = .ok a.y
      ∧ parseFloatE (pySlice line 46 54) = .ok a.z
      ∧ parseFloatE (pySlice line 54 60) = .ok a.q
      ∧ parseFloatE (pySlice line 60 66) = .ok a.b
      ∧ a.e = elemOf (strip (pySlice line 76 78)) (strip (pySlice line 12 16))
      ∧ a.charge = strip (pySlice line 78 80) := by
  simp only [parseAtomLine, bindE_ok] at h
  obtain ⟨id, h1, alt, h2, chain, h3, resi, h4, ic, h5, x, h6, y, h7, z, h8,
    q, h9, b, h10, hp⟩ := h
  simp only [pure, Except.pure, Except.ok.injEq] at hp
  subst hp
  exact ⟨rfl, rfl, h1, rfl, h2, rfl, h3, h4, h5, h6, h7, h8, h9, h10, rfl, rfl⟩

/-! ## C1: the rmsd formula -/

/-- C1 (counterexample): for the one-atom structures whose coordinates
differ by the constant vector (1,0,0), the code's rmsd is `sqrt 1 = 1`,
while the claimed divide-by-`3·natoms` formula gives `sqrt (1/3) < 1` —
the claim's formula is not the one the code computes. -/
theorem c1_rmsd_counterexample :
    Real.sqrt ((rmsdSq [((1 : ℚ), 0, 0)] [((0 : ℚ), 0, 0)] : ℚ) : ℝ)
      ≠ Real.sqrt ((rmsdSqClaim [((1 : ℚ), 0, 0)] [((0 : ℚ), 0, 0)] : ℚ) : ℝ) := by
  have h1 : rmsdSq [((1 : ℚ), 0, 0)] [((0 : ℚ), 0, 0)] = 1 := by
    norm_num [rmsdSq, sqDiffSum, sqDiff]
  have h2 : rmsdSqClaim [((1 : ℚ), 0, 0)] [((0 : ℚ), 0, 0)] = 1 / 3 := by
    norm_num [rmsdSqClaim, sqDiffSum, sqDiff]
  rw [h1, h2]
  rw [show ((1 : ℚ) : ℝ) = 1 by norm_num, Real.sqrt_one]
  have hlt : Real.sqrt (((1 / 3 : ℚ) : ℝ)) < 1 := by
    rw [show ((1 / 3 : ℚ) : ℝ) = 1 / 3 by norm_num]
    have h := Real.sqrt_lt_sqrt (by norm_num : (0 : ℝ) ≤ 1 / 3)
      (by norm_num : (1 / 3 : ℝ) < 1)
    simpa [Real.sqrt_one] using h
  exact fun hEq => (ne_of_lt hlt) hEq.symm

/-- C1 (amended): `rmsd` returns `sqrt (S / natoms)` — the mean over the
`3·natoms` flat scalar differences is multiplied back by 3 before the square
root (`.mean() * 3` in the source), so the extra factor 1/3 of the claim's
formula cancels and the result is the conventional flat-scalar RMSD over the
atom count alone. -/
theorem c1_rmsd_formula (P Q : List (ℚ × ℚ × ℚ))
    (_hlen : P.length = Q.length) (hne : P ≠ []) :
    Real.sqrt ((rmsdSq P Q : ℚ) : ℝ)
      = Real.sqrt (((sqDiffSum P Q / (P.length : ℚ) : ℚ) : ℝ)) := by
  have hn : (P.length : ℚ) ≠ 0 :=
    Nat.cast_ne_zero.mpr (fun h0 => hne (List.length_eq_zero.mp h0))
  have hq : rmsdSq P Q = sqDiffSum P Q / (P.length : ℚ) := by
    rw [rmsdSq]
    field_simp
    ring
  rw [hq]

/-- Witness for C1: the amended formula evaluated at the concrete one-atom
pair used in the counterexample. -/
theorem c1_rmsd_formula_witness :
    Real.sqrt ((rmsdSq [((1 : ℚ), 0, 0)] [((0 : ℚ), 0, 0)] : ℚ) : ℝ)
      = Real.sqrt (((sqDiffSum [((1 : ℚ), 0, 0)] [((0 : ℚ), 0, 0)]
          / ((List.length [((1 : ℚ), 0, 0)] : ℕ) : ℚ) : ℚ) : ℝ)) :=
  c1_rmsd_formula [((1 : ℚ), 0, 0)] [((0 : ℚ), 0, 0)] rfl (by decide)

/-! ## C2: handle release on every exit path -/

theorem parsePdbGo_closed_iff (lines : List Str) :
    ∀ m : Int, (parsePdbGo lines m).2 = true
      ↔ ∃ t, (parsePdbGo lines m).1 = .ok t := by
  induction lines with
  | nil => intro m; simp [parsePdbGo]
  | cons l ls ih =>
    intro m
    simp only [parsePdbGo]
    cases h : parseLineStep m l with
    | error e => simp
    | ok p =>
      obtain ⟨oa, m'⟩ := p
      have ih' := ih m'
      dsimp only
      rcases hr : parsePdbGo ls m' with ⟨r, c⟩
      rw [hr] at ih'
      cases r with
      | ok t => simpa using ih'
      | error e => simpa using ih'

/-- C2 (counterexample): on an `ATOM` line whose serial column is not
numeric, `parse_pdb` aborts with an error and the handle-closed flag is
`false` — `f.close()` is only reached after a successful loop, so this exit
path leaks the handle, contrary to the claim. -/
theorem c2_close_counterexample :
    (parse_pdb [exLbad]).1 = Except.error PErr.malformed
      ∧ (parse_pdb [exLbad]).2 = false := by decide

/-- C2 (amended): `parse_mmcif` (a `with` block) releases its handle on
every exit path, but `parse_pdb` releases it exactly when the parse
succeeds: an aborted parse exits with the handle still open. -/
theorem c2_close_amended :
    (∀ lines : List Str,
      ((parse_pdb lines).2 = true ↔ ∃ t, (parse_pdb lines).1 = Except.ok t))
      ∧ ∀ lines : List Str, (parse_mmcif lines).2 = true :=
  ⟨fun lines => parsePdbGo_closed_iff lines 1, fun _ => rfl⟩

/-! ## C5: format dispatch -/

/-- C5 (counterexample): the file name `a.xpdb` has extension `xpdb`, which
is none of `pdb`/`ent`/`cif`, yet `fromfile` dispatches it to the PDB
reader instead of failing: the dispatch tests the last three characters of
the name (`fname[-3:]`), not the extension. -/
theorem c5_dispatch_counterexample :
    extensionOf "a.xpdb".data = some "xpdb".data
      ∧ extensionOf "a.xpdb".data ≠ some "pdb".data
      ∧ extensionOf "a.xpdb".data ≠ some "ent".data
      ∧ extensionOf "a.xpdb".data ≠ some "cif".data
      ∧ fromfileFormat "a.xpdb".data = .ok .pdbFmt := by decide

/-- C5 (amended): reading dispatches on the last three characters of the
file name — `⋯pdb`/`⋯ent` to the PDB reader, `⋯cif` to the mmCIF reader,
anything else fails with `UnsupportedFormat`; `tofile` fails with
`UnsupportedFormat` exactly when the output type is neither `pdb` nor
`mmcif` (the error is raised before any writer output exists). -/
theorem c5_dispatch_amended :
    (∀ fname : Str,
      (fromfileFormat fname = .ok FileFormat.pdbFmt
        ↔ pyTakeLast fname 3 = "pdb".data ∨ pyTakeLast fname 3 = "ent".data)
      ∧ (fromfileFormat fname = .ok FileFormat.cifFmt
        ↔ pyTakeLast fname 3 = "cif".data)
      ∧ (fromfileFormat fname = .error DispatchErr.unsupportedFormat
        ↔ pyTakeLast fname 3 ≠ "pdb".data ∧ pyTakeLast fname 3 ≠ "ent".data
            ∧ pyTakeLast fname 3 ≠ "cif".data))
    ∧ ∀ outtype : Str,
      (tofileDispatch outtype = .error DispatchErr.unsupportedFormat
        ↔ outtype ≠ "pdb".data ∧ outtype ≠ "mmcif".data) := by
  constructor
  · intro fname
    unfold fromfileFormat
    by_cases h1 : pyTakeLast fname 3 = "pdb".data ∨ pyTakeLast fname 3 = "ent".data
    · rw [if_pos h1]
      have h2 : pyTakeLast fname 3 ≠ "cif".data := by
        rcases h1 with h | h <;> rw [h] <;> decide
      exact ⟨iff_of_true rfl h1, iff_of_false (by decide) h2,
        iff_of_false (by decide) (fun hc => h1.elim hc.1 hc.2.1)⟩
    · rw [if_neg h1]
      push_neg at h1
      by_cases h2 : pyTakeLast fname 3 = "cif".data
      · rw [if_pos h2]
        exact ⟨iff_of_false (by decide) (fun hor => hor.elim h1.1 h1.2),
          iff_of_true rfl h2,
          iff_of_false (by decide) (fun hc => hc.2.2 h2)⟩
      · rw [if_neg h2]
        exact ⟨iff_of_false (by decide) (fun hor => hor.elim h1.1 h1.2),
          iff_of_false (by decide) h2,
          iff_of_true rfl ⟨h1.1, h1.2, h2⟩⟩
  · intro outtype
    unfold tofileDispatch
    by_cases g1 : outtype = "pdb".data
    · rw [if_pos g1]
      exact iff_of_false (by decide) (fun hc => hc.1 g1)
    · rw [if_neg g1]
      by_cases g2 : outtype = "mmcif".data
      · rw [if_pos g2]
        exact iff_of_false (by decide) (fun hc => hc.2 g2)
      · rw [if_neg g2]
        exact iff_of_true rfl ⟨g1, g2⟩

/-! ## C7 and C10: element inference from the atom name -/

theorem inferLoop_find_alpha (name : Str) : ∀ (init : Str) (c : Char),
    name.find? Char.isAlpha = some c → inferLoop name init = [c] := by
  induction name with
  | nil => intro init c h; simp at h
  | cons d cs ih =>
    intro init c h
    by_cases hd : d.isAlpha
    · rw [List.find?_cons_of_pos _ hd] at h
      obtain rfl : d = c := by simpa using h
      simp [inferLoop, hd]
    · rw [List.find?_cons_of_neg _ hd] at h
      simp only [inferLoop, if_neg hd]
      exact ih [d] c h

/-- C7: for an `ATOM`/`HETATM` line whose element column (chars 77-78) is
blank and whose stripped atom name contains an alphabetic character, the
recorded element is the first alphabetic character of the name scanned left
to right. -/
theorem c7_element_first_alpha (line : Str) (a : Atom) (c : Char)
    (hok : parseAtomLine line = .ok a)
    (hblank : strip (pySlice line 76 78) = [])
    (hfind : (strip (pySlice line 12 16)).find? Char.isAlpha = some c) :
    a.e = [c] := by
  obtain ⟨-, -, -, -, -, -, -, -, -, -, -, -, -, -, he, -⟩ :=
    parseAtomLine_ok_elim line a hok
  rw [he, hblank, elemOf]
  simp only [List.isEmpty_nil, if_true]
  exact inferLoop_find_alpha _ _ c hfind

/-- Witness for C7: the concrete line with blank element column and name
`" CA1"` gets element `"C"`. -/
theorem c7_element_first_alpha_witness :
    (forceAtom exLca1).e = ['C'] :=
  c7_element_first_alpha exLca1 (forceAtom exLca1) 'C' rfl (by decide) (by decide)

theorem inferLoop_no_alpha (name : Str) : ∀ init : Str,
    (∀ c ∈ name, ¬ c.isAlpha = true) → name ≠ [] →
    inferLoop name init = [name.getLastD ' '] := by
  induction name with
  | nil => intro init _ h; exact absurd rfl h
  | cons d cs ih =>
    intro init hna _
    have hd := hna d (List.mem_cons_self d cs)
    simp only [inferLoop, if_neg hd]
    cases cs with
    | nil => rfl
    | cons e es =>
      rw [ih [d] (fun c hc => hna c (List.mem_cons_of_mem d hc)) (by simp)]
      rfl

/-- C10: for an `ATOM`/`HETATM` line whose element column is blank and whose
stripped name has no alphabetic character, the recorded element is the last
character of the stripped name (the empty string for an empty name) — the
line still parses, this is not a failure. -/
theorem c10_element_no_alpha (line : Str) (a : Atom)
    (hok : parseAtomLine line = .ok a)
    (hblank : strip (pySlice line 76 78) = [])
    (hna : ∀ c ∈ strip (pySlice line 12 16), ¬ c.isAlpha = true) :
    a.e = lastCharElem (strip (pySlice line 12 16)) := by
  obtain ⟨-, -, -, -, -, -, -, -, -, -, -, -, -, -, he, -⟩ :=
    parseAtomLine_ok_elim line a hok
  rw [he, hblank, elemOf]
  simp only [List.isEmpty_nil, if_true]
  rcases hn : strip (pySlice line 12 16) with - | ⟨d, cs⟩
  · rfl
  · rw [hn] at hna
    rw [inferLoop_no_alpha (d :: cs) [] hna (by simp)]
    rfl

/-- Witness for C10: the concrete line with blank element column and the
non-alphabetic name `"123"` parses, with element `"3"`. -/
theorem c10_element_no_alpha_witness :
    (forceAtom exL123).e = lastCharElem (strip (pySlice exL123 12 16)) :=
  c10_element_no_alpha exL123 (forceAtom exL123) rfl (by decide) (by decide)

/-! ## C8: duplicate then rotate leaves the source untouched -/

/-- C8: duplicating a Structure and rotating the duplicate leaves the
source's prot state (hence its coordinates) unchanged, and the duplicate's
state becomes the transformed copy of the source's — the copy occupies a
fresh heap cell, sharing no storage with the source. -/
theorem c8_duplicate_rotate (h : ProtHeap) (s : StructRef) (R : Mat3)
    (hs : s.prot < h.length) :
    (rotateS (duplicateS h s).1 (duplicateS h s).2 R).getD s.prot []
        = h.getD s.prot []
      ∧ (rotateS (duplicateS h s).1 (duplicateS h s).2 R).getD
            (duplicateS h s).2.prot []
          = matrixTransform R (h.getD s.prot []) := by
  unfold duplicateS protCopy rotateS
  dsimp only
  constructor
  · rw [List.getD_eq_getElem?_getD, List.getElem?_set_ne (by omega),
      List.getElem?_append, if_pos hs, ← List.getD_eq_getElem?_getD]
  · rw [List.getD_eq_getElem?_getD,
      List.getElem?_set_self (by simp),
      List.getD_eq_getElem?_getD, List.getElem?_concat_length]
    rfl

/-- Witness for C8: a one-cell heap holding one atom, duplicated and the
duplicate scaled by 2. -/
theorem c8_duplicate_rotate_witness :
    (rotateS (duplicateS [[exA1]] ⟨0⟩).1 (duplicateS [[exA1]] ⟨0⟩).2 exMat).getD 0 []
        = ([[exA1]] : ProtHeap).getD 0 []
      ∧ (rotateS (duplicateS [[exA1]] ⟨0⟩).1 (duplicateS [[exA1]] ⟨0⟩).2 exMat).getD
            (duplicateS [[exA1]] ⟨0⟩).2.prot []
          = matrixTransform exMat (([[exA1]] : ProtHeap).getD 0 []) :=
  c8_duplicate_rotate [[exA1]] ⟨0⟩ exMat (by decide)

/-! ## C9: atoms before the first MODEL line get model number 1 -/

/-- A line that is not a `MODEL` record leaves the current model number
unchanged, and any atom row it produces carries that model number. -/
theorem parseLineStep_noModel (m : Int) (line : Str)
    (h : pySlice line 0 6 ≠ MODELrec) :
    (∃ err, parseLineStep m line = .error err)
      ∨ ∃ oa, parseLineStep m line = .ok (oa, m)
          ∧ ∀ a ∈ oa.toList, a.model = m := by
  by_cases h1 : pySlice line 0 6 = ATOMrec ∨ pySlice line 0 6 = HETATMrec
  · simp only [parseLineStep, if_pos h1]
    cases hp : parseAtomLine line with
    | error err => exact .inl ⟨err, by simp [Bind.bind, Except.bind, hp]⟩
    | ok a =>
      refine .inr ⟨some { a with model := m }, ?_, ?_⟩
      · simp [Bind.bind, Except.bind, hp, pure, Except.pure]
      · intro a' ha'
        simp only [Option.toList_some, List.mem_singleton] at ha'
        subst ha'
        rfl
  · simp only [parseLineStep, if_neg h1, if_neg h]
    exact .inr ⟨none, rfl, by simp⟩

/-- The loop invariant behind C9: over a prefix of lines containing no
`MODEL` record, a successful parse of the whole input splits into the atoms
of that prefix — all carrying the entry model number — followed by the rest,
and the prefix alone parses successfully too. -/
theorem parsePdbGo_prefix_noModel (l₁ : List Str) :
    ∀ (l₂ : List Str) (m : Int) (t : List Atom),
    (∀ l ∈ l₁, pySlice l 0 6 ≠ MODELrec) →
    (parsePdbGo (l₁ ++ l₂) m).1 = .ok t →
    ∃ t₁ t₂, t = t₁ ++ t₂ ∧ (parsePdbGo l₁ m).1 = .ok t₁
      ∧ ∀ a ∈ t₁, a.model = m := by
  induction l₁ with
  | nil =>
    intro l₂ m t _ h
    exact ⟨[], t, by simp, by simp [parsePdbGo], by simp⟩
  | cons l ls ih =>
    intro l₂ m t hno h
    rcases parseLineStep_noModel m l (hno l (List.mem_cons_self l ls)) with
      ⟨err, he⟩ | ⟨oa, hok, hmod⟩
    · rw [List.cons_append] at h
      simp only [parsePdbGo, he] at h
      exact absurd h (by simp)
    · rw [List.cons_append] at h
      simp only [parsePdbGo, hok] at h
      rcases hr : parsePdbGo (ls ++ l₂) m with ⟨r, c⟩
      rw [hr] at h
      cases r with
      | error e => simp at h
      | ok t' =>
        simp only [Except.ok.injEq] at h
        obtain ⟨t₁, t₂, ht, hgo, hm1⟩ :=
          ih l₂ m t' (fun l' hl' => hno l' (List.mem_cons_of_mem l hl'))
            (by rw [hr])
        refine ⟨oa.toList ++ t₁, t₂, ?_, ?_, ?_⟩
        · rw [← h, ht, List.append_assoc]
        · simp only [parsePdbGo, hok]
          rcases hr₁ : parsePdbGo ls m with ⟨r₁, c₁⟩
          rw [hr₁] at hgo
          cases r₁ with
          | error e₁ => simp at hgo
          | ok t₁' =>
            simp only [Except.ok.injEq] at hgo
            simp [hgo]
        · intro a ha
          rcases List.mem_append.mp ha with h' | h'
          exacts [hmod a h', hm1 a h']

/-- C9: every `ATOM`/`HETATM` record appearing before the first `MODEL`
line (in particular, every record of an input with no `MODEL` line at all,
taking the rest empty) is assigned model number 1: the model-number state
starts at 1 and is only changed by a `MODEL` record. -/
theorem c9_model_default (l₁ l₂ : List Str) (t : List Atom)
    (hno : ∀ l ∈ l₁, pySlice l 0 6 ≠ MODELrec)
    (h : (parse_pdb (l₁ ++ l₂)).1 = .ok t) :
    ∃ t₁ t₂, t = t₁ ++ t₂ ∧ (parse_pdb l₁).1 = .ok t₁
      ∧ ∀ a ∈ t₁, a.model = 1 :=
  parsePdbGo_prefix_noModel l₁ l₂ 1 t hno h

/-- Witness for C9: one atom line before a `MODEL 3` line followed by a
second atom line; the first atom gets model 1, the one after the `MODEL`
line gets model 3. -/
theorem c9_model_default_witness :
    ∃ t₁ t₂,
      [{ forceAtom exL1 with model := 1 }, { forceAtom exL2 with model := 3 }]
          = t₁ ++ t₂
        ∧ (parse_pdb [exL1]).1 = .ok t₁ ∧ ∀ a ∈ t₁, a.model = 1 :=
  c9_model_default [exL1] [exLmodel3, exL2]
    [{ forceAtom exL1 with model := 1 }, { forceAtom exL2 with model := 3 }]
    (by decide) rfl

/-! ## C3: TER emission at chain changes -/

/-- The writer's `prev_chain` state always equals the chain of the atom at
`index - 1`, so the stateful loop coincides with the claim's
previous-atom characterisation. -/
theorem blockLoop_eq_spec (rest : List Atom) : ∀ (prev : Atom) (c : Char),
    c = prev.chain → blockLoop c prev rest = blockSpecGo prev rest := by
  induction rest with
  | nil => intro prev c _; rfl
  | cons a rs ih =>
    intro prev c hc
    subst hc
    simp only [blockLoop, blockSpecGo]
    by_cases h : prev.chain = a.chain
    · rw [if_neg (by simpa using h), if_neg (fun hc' => hc'.1 h.symm),
        ih a prev.chain h]
      simp
    · rw [if_pos h, ih a a.chain rfl]
      by_cases hr : prev.record = ATOMrec
      · rw [if_pos hr, if_pos ⟨Ne.symm h, hr⟩]
      · rw [if_neg hr, if_neg (fun hc' => hr hc'.2)]

/-- C3: within one model block the writer emits a `TER` line exactly at
each position where the chain id differs from the previous atom's chain id
and the previous record is `ATOM  ` (not `HETATM`), carrying the previous
atom's serial + 1, residue name, chain id, residue number and insertion
code; in particular, for the three all-`ATOM` atoms with chains A, A, B the
output holds exactly one `TER`, between the last A atom and the B atom,
with serial = last-A serial + 1. -/
theorem c3_ter_emission :
    (∀ b : List Atom, writeBlock b = writeBlockSpec b)
      ∧ tofileLines [exA1, exA2, exB3] =
          [OutLine.atomLine (lineDataOf exA1), OutLine.atomLine (lineDataOf exA2),
           OutLine.terLine (exA2.id + 1) exA2.resn exA2.chain exA2.resi exA2.i,
           OutLine.atomLine (lineDataOf exB3), OutLine.endLine] := by
  constructor
  · intro b
    cases b with
    | nil => rfl
    | cons a rest =>
      simp only [writeBlock, writeBlockSpec]
      rw [blockLoop_eq_spec rest a a.chain rfl]
  · rfl

/-! ## C4: MODEL/ENDMDL pairs and the END line -/

/-- The inner atom loop emits only `TER` and atom lines, so it contributes
nothing to a count of `MODEL`/`ENDMDL`/`END` lines. -/
theorem countP_blockLoop (p : OutLine → Bool)
    (hter : ∀ i r c ri ic, p (OutLine.terLine i r c ri ic) = false)
    (hatom : ∀ a, p (OutLine.atomLine a) = false) (rest : List Atom) :
    ∀ (ch : Char) (prev : Atom), (blockLoop ch prev rest).countP p = 0 := by
  induction rest with
  | nil => intro ch prev; rfl
  | cons a rs ih =>
    intro ch prev
    simp only [blockLoop]
    by_cases h : ch = a.chain
    · rw [if_neg (by simpa using h)]
      simp [List.countP_cons, hatom, ih]
    · rw [if_pos h]
      by_cases hr : prev.record = ATOMrec
      · rw [if_pos hr]
        simp [List.countP_cons, List.countP_append, hter, hatom, ih]
      · rw [if_neg hr]
        simp [List.countP_cons, hatom, ih]

theorem countP_writeBlock (p : OutLine → Bool)
    (hter : ∀ i r c ri ic, p (OutLine.terLine i r c ri ic) = false)
    (hatom : ∀ a, p (OutLine.atomLine a) = false) (b : List Atom) :
    (writeBlock b).countP p = 0 := by
  cases b with
  | nil => rfl
  | cons a rest =>
    simp [writeBlock, List.countP_cons, hatom,
      countP_blockLoop p hter hatom rest]


/-- Sum of a list-map that is constant on the list. -/
theorem sum_map_const_on {α : Type} (l : List α) (g : α → ℕ) (C : ℕ)
    (h : ∀ i ∈ l, g i = C) : (l.map g).sum = l.length * C := by
  induction l with
  | nil => simp
  | cons a as ih =>
    simp only [List.map_cons, List.sum_cons, List.length_cons]
    rw [h a (List.mem_cons_self a as),
      ih (fun i hi => h i (List.mem_cons_of_mem a hi)), Nat.succ_mul,
      Nat.add_comm]

/-- Generic count of the per-model frame lines in the writer output: each
of the `nmodels` blocks contributes its `MODEL` and `ENDMDL` line only when
`nmodels > 1`, the atom loops contribute nothing, and the single `END` line
closes the file. -/
theorem countP_tofileLines (p : OutLine → Bool) (pm pe pend : Bool)
    (hmodel : ∀ k : Int, p (OutLine.modelLine k) = pm)
    (hendmdl : p OutLine.endmdlLine = pe)
    (hend : p OutLine.endLine = pend)
    (hter : ∀ i r c ri ic, p (OutLine.terLine i r c ri ic) = false)
    (hatom : ∀ a, p (OutLine.atomLine a) = false) (t : List Atom) :
    (tofileLines t).countP p =
      (if 1 < nmodelsOf t then
        nmodelsOf t * ((if pm = true then 1 else 0) + (if pe = true then 1 else 0))
      else 0) + (if pend = true then 1 else 0) := by
  unfold tofileLines
  rw [List.countP_append, List.countP_flatten, List.map_map]
  have hone : List.countP p [OutLine.endLine] = if pend = true then 1 else 0 := by
    simp [List.countP_cons, hend]
  rw [hone]
  congr 1
  rw [sum_map_const_on (List.range (nmodelsOf t)) _
    (if 1 < nmodelsOf t then
      (if pm = true then 1 else 0) + (if pe = true then 1 else 0) else 0)
    ?_]
  · rw [List.length_range]
    by_cases hn : 1 < nmodelsOf t <;> simp [hn]
  · intro i _
    simp only [Function.comp, List.countP_append,
      countP_writeBlock p hter hatom]
    by_cases hn : 1 < nmodelsOf t <;>
      simp [hn, List.countP_cons, hmodel, hendmdl]

/-- Flattening pairwise-distinct model values, each repeated over a block
of `k > 0` atoms, leaves exactly one distinct value per block. -/
theorem dedup_length_flatten_replicate (k : Nat) (hk : 0 < k) :
    ∀ ms : List Int, ms.Nodup →
    ((ms.map (List.replicate k)).flatten).dedup.length = ms.length := by
  intro ms hnd
  rw [← List.card_toFinset]
  have htf : ((ms.map (List.replicate k)).flatten).toFinset = ms.toFinset := by
    induction ms with
    | nil => simp
    | cons m rest ih =>
      simp only [List.map_cons, List.flatten_cons, List.toFinset_append,
        List.toFinset_cons]
      rw [List.toFinset_replicate_of_ne_zero (Nat.pos_iff_ne_zero.mp hk),
        ih (List.Nodup.of_cons hnd)]
      rfl
  rw [htf]
  exact List.toFinset_card_of_nodup hnd

/-- Equal-sized blocks of constant model value map, column-wise, to
replicated model values. -/
theorem forall2_map_replicate (k : Nat) :
    ∀ (bs : List (List Atom)) (ms : List Int),
    List.Forall₂ (fun (b : List Atom) (m : Int) =>
      b.length = k ∧ ∀ a ∈ b, a.model = m) bs ms →
    bs.map (fun b => b.map (·.model)) = ms.map (List.replicate k) := by
  intro bs ms h
  induction h with
  | nil => rfl
  | cons hbm hrest ih =>
    simp only [List.map_cons, ih, List.cons.injEq, and_true]
    exact List.eq_replicate_iff.mpr
      ⟨by simp [hbm.1], by simpa using fun a ha => hbm.2 a ha⟩

/-- C4 (counterexample): a table consisting of one single-model block
produces NO `MODEL` or `ENDMDL` line at all (the writer only emits them
when `nmodels > 1`), not the one pair the claim's "regardless of model
count" demands; the `END` line is there. -/
theorem c4_model_counterexample :
    nmodelsOf [exA1] = 1
      ∧ (tofileLines [exA1]).countP isModelL = 0
      ∧ (tofileLines [exA1]).countP isEndmdlL = 0
      ∧ ¬((tofileLines [exA1]).countP isModelL = 1)
      ∧ (tofileLines [exA1]).countP isEndL = 1 := by decide

/-- C4 (amended): for a table partitioned into `N` equal-sized contiguous
model blocks in ascending model order, the writer emits exactly `N`
`MODEL` and `N` `ENDMDL` lines when `N ≥ 2` and none at all when `N = 1`,
and always exactly one `END` line, which is the last line. -/
theorem c4_model_blocks (bs : List (List Atom)) (ms : List Int) (k : Nat)
    (hk : 0 < k)
    (hblocks : List.Forall₂ (fun (b : List Atom) (m : Int) =>
      b.length = k ∧ ∀ a ∈ b, a.model = m) bs ms)
    (hmono : ms.Chain' (· < ·)) :
    nmodelsOf bs.flatten = ms.length
      ∧ (tofileLines bs.flatten).countP isModelL
          = (if 1 < ms.length then ms.length else 0)
      ∧ (tofileLines bs.flatten).countP isEndmdlL
          = (if 1 < ms.length then ms.length else 0)
      ∧ (tofileLines bs.flatten).countP isEndL = 1
      ∧ (tofileLines bs.flatten).getLast? = some OutLine.endLine := by
  have hnd : ms.Nodup :=
    List.Pairwise.imp (fun h => ne_of_lt h) (List.chain'_iff_pairwise.mp hmono)
  have hmap : (bs.flatten).map (·.model) = (ms.map (List.replicate k)).flatten := by
    rw [List.map_flatten]
    rw [forall2_map_replicate k bs ms hblocks]
  have h1 : nmodelsOf bs.flatten = ms.length := by
    unfold nmodelsOf
    rw [hmap]
    exact dedup_length_flatten_replicate k hk ms hnd
  refine ⟨h1, ?_, ?_, ?_, ?_⟩
  · rw [countP_tofileLines isModelL true false false (fun k => rfl) rfl rfl
      (fun i r c ri ic => rfl) (fun a => rfl), h1]
    by_cases hm : 1 < ms.length <;> simp [hm]
  · rw [countP_tofileLines isEndmdlL false true false (fun k => rfl) rfl rfl
      (fun i r c ri ic => rfl) (fun a => rfl), h1]
    by_cases hm : 1 < ms.length <;> simp [hm]
  · rw [countP_tofileLines isEndL false false true (fun k => rfl) rfl rfl
      (fun i r c ri ic => rfl) (fun a => rfl)]
    simp
  · simp only [tofileLines]
    rw [List.getLast?_concat]

/-- Witness for C4: two one-atom blocks with model numbers 1 and 2 produce
two `MODEL`/`ENDMDL` pairs and one final `END` line. -/
theorem c4_model_blocks_witness :
    nmodelsOf ([[exA1], [exM2]] : List (List Atom)).flatten = 2
      ∧ (tofileLines ([[exA1], [exM2]] : List (List Atom)).flatten).countP isModelL
          = (if 1 < ([1, 2] : List Int).length then ([1, 2] : List Int).length else 0)
      ∧ (tofileLines ([[exA1], [exM2]] : List (List Atom)).flatten).countP isEndmdlL
          = (if 1 < ([1, 2] : List Int).length then ([1, 2] : List Int).length else 0)
      ∧ (tofileLines ([[exA1], [exM2]] : List (List Atom)).flatten).countP isEndL = 1
      ∧ (tofileLines ([[exA1], [exM2]] : List (List Atom)).flatten).getLast?
          = some OutLine.endLine := by
  have h := c4_model_blocks [[exA1], [exM2]] [1, 2] 1 (by decide)
    (List.Forall₂.cons ⟨rfl, by decide⟩
      (List.Forall₂.cons ⟨rfl, by decide⟩ List.Forall₂.nil))
    (List.chain'_pair.mpr (by norm_num))
  simpa using h

/-! ## C6: single-model parse/write round trip -/

theorem wf_parse_ok (l : Str) (h : wfAtomLine l = true) :
    parseAtomLine l = .ok (forceAtom l) := by
  unfold wfAtomLine at h
  cases hp : parseAtomLine l with
  | error e => rw [hp] at h; simp at h
  | ok a => unfold forceAtom; rw [hp]; rfl

/-- Unpacking of the well-formedness predicate: the record tag is
`ATOM  `/`HETATM` and every tracked column is in the writer's canonical
layout for its parsed value. -/
theorem wf_parts (l : Str) (a : Atom) (h : wfAtomLine l = true)
    (hp : parseAtomLine l = .ok a) :
    (pySlice l 0 6 = ATOMrec ∨ pySlice l 0 6 = HETATMrec)
      ∧ pySlice l 12 16 = fmtName a.e a.name
      ∧ pySlice l 22 26 = fmtIntPad 4 a.resi
      ∧ pySlice l 30 38 = fmtF83 a.x
      ∧ pySlice l 38 46 = fmtF83 a.y
      ∧ pySlice l 46 54 = fmtF83 a.z := by
  unfold wfAtomLine at h
  rw [hp] at h
  simpa [Bool.and_eq_true, Bool.or_eq_true, beq_iff_eq, and_assoc] using h

theorem pyIndex_slice (s : Str) (n : Nat) (c : Char)
    (h : pyIndex s n = .ok c) : pySlice s n (n + 1) = [c] := by
  unfold pyIndex at h
  unfold pySlice
  cases hd : s.drop n with
  | nil => rw [hd] at h; simp at h
  | cons c' rest =>
    rw [hd] at h
    simp only [Except.ok.injEq] at h
    subst h
    simp

theorem parseLineStep_wf (m : Int) (l : Str) (h : wfAtomLine l = true) :
    parseLineStep m l = .ok (some { forceAtom l with model := m }, m) := by
  have hok := wf_parse_ok l h
  have hrec := (wf_parts l (forceAtom l) h hok).1
  simp only [parseLineStep, if_pos hrec]
  simp [Bind.bind, Except.bind, hok, pure, Except.pure]

/-- Parsing a sequence of well-formed atom lines succeeds, closes the
handle, and yields exactly one row per line, all carrying the entry model
number. -/
theorem parsePdbGo_all_wf (lines : List Str) : ∀ m : Int,
    (∀ l ∈ lines, wfAtomLine l = true) →
    parsePdbGo lines m
      = (.ok (lines.map (fun l => { forceAtom l with model := m })), true) := by
  induction lines with
  | nil => intro m _; rfl
  | cons l ls ih =>
    intro m hwf
    simp only [parsePdbGo,
      parseLineStep_wf m l (hwf l (List.mem_cons_self l ls)),
      ih m (fun l' h' => hwf l' (List.mem_cons_of_mem l h'))]
    rfl

theorem dedup_const (c : Int) : ∀ l : List Int, l ≠ [] → (∀ x ∈ l, x = c) →
    l.dedup = [c] := by
  intro l
  induction l with
  | nil => intro h _; exact absurd rfl h
  | cons a as ih =>
    intro _ hall
    obtain rfl : a = c := hall a (List.mem_cons_self a as)
    cases as with
    | nil => simp
    | cons b bs =>
      have hmem : a ∈ b :: bs := by
        have hb : b = a := hall b (by simp)
        simp [hb]
      rw [List.dedup_cons_of_mem hmem]
      exact ih (by simp) (fun x hx => hall x (List.mem_cons_of_mem _ hx))

theorem nmodels_const_one (t : List Atom) (hne : t ≠ [])
    (hall : ∀ a ∈ t, a.model = 1) : nmodelsOf t = 1 := by
  unfold nmodelsOf
  rw [dedup_const 1 (t.map (·.model)) (by simpa using hne)
    (by intro x hx; obtain ⟨a, ha, rfl⟩ := List.mem_map.mp hx; exact hall a ha)]
  rfl

/-- For a single-model table the writer emits the one block with no
`MODEL`/`ENDMDL` frame, closed by the `END` line. -/
theorem tofileLines_single (t : List Atom) (h1 : nmodelsOf t = 1) :
    tofileLines t = writeBlock t ++ [OutLine.endLine] := by
  unfold tofileLines
  rw [h1]
  simp [List.range_succ, List.take_length]

theorem filterMap_blockLoop (rest : List Atom) : ∀ (c : Char) (prev : Atom),
    (blockLoop c prev rest).filterMap atomOf = rest.map lineDataOf := by
  induction rest with
  | nil => intro c prev; rfl
  | cons a rs ih =>
    intro c prev
    simp only [blockLoop]
    by_cases h : c = a.chain
    · rw [if_neg (by simpa using h)]
      simp [atomOf, ih]
    · rw [if_pos h]
      by_cases hr : prev.record = ATOMrec
      · rw [if_pos hr]
        simp [atomOf, ih]
      · rw [if_neg hr]
        simp [atomOf, ih]

/-- The atom records written for a block are exactly its rows (with the
name-position adjustment), in order; `TER` lines drop out. -/
theorem filterMap_writeBlock (b : List Atom) :
    (writeBlock b).filterMap atomOf = b.map lineDataOf := by
  cases b with
  | nil => rfl
  | cons a rest => simp [writeBlock, atomOf, filterMap_blockLoop rest]

/-- For a well-formed line, the written row reproduces the name, chain,
residue-number and coordinate columns of the original line exactly. -/
theorem fieldsMatch_of_wf (l : Str) (m : Int) (h : wfAtomLine l = true) :
    fieldsMatch (lineDataOf { forceAtom l with model := m }) l := by
  have hok := wf_parse_ok l h
  obtain ⟨-, hname, hresi, hx, hy, hz⟩ := wf_parts l (forceAtom l) h hok
  obtain ⟨-, -, -, -, -, -, hchain, -, -, -, -, -, -, -, -, -⟩ :=
    parseAtomLine_ok_elim l (forceAtom l) hok
  have hslice := pyIndex_slice l 21 _ hchain
  unfold fieldsMatch lineDataOf
  by_cases hc : (forceAtom l).e.length = 1 ∧ (forceAtom l).name.length ≠ 4
  · rw [if_pos hc]
    refine ⟨?_, hslice.symm, ?_, ?_, ?_, ?_⟩
    · rw [hname]
      unfold fmtName
      rw [if_pos hc]
    · rw [hresi]
    · rw [hx]
    · rw [hy]
    · rw [hz]
  · rw [if_neg hc]
    refine ⟨?_, hslice.symm, ?_, ?_, ?_, ?_⟩
    · rw [hname]
      unfold fmtName
      rw [if_neg hc]
    · rw [hresi]
    · rw [hx]
    · rw [hy]
    · rw [hz]

/-- C6: parsing a well-formed single-model PDB input and immediately
writing the resulting table emits one `ATOM`/`HETATM` record per input
line, in order, whose atom-name, chain-id, residue-number and x/y/z
coordinate fields (as laid out by the writer's format strings) coincide
exactly with the corresponding columns of the original line. -/
theorem c6_roundtrip (lines : List Str) (t : List Atom)
    (hwf : ∀ l ∈ lines, wfAtomLine l = true) (hne : lines ≠ [])
    (hok : (parse_pdb lines).1 = .ok t) :
    List.Forall₂ fieldsMatch ((tofileLines t).filterMap atomOf) lines := by
  have hgo := parsePdbGo_all_wf lines 1 hwf
  have ht : t = lines.map (fun l => { forceAtom l with model := 1 }) := by
    unfold parse_pdb at hok
    rw [hgo] at hok
    simpa using hok.symm
  have hmodels : ∀ a ∈ t, a.model = 1 := by
    rw [ht]
    intro a ha
    obtain ⟨l, -, rfl⟩ := List.mem_map.mp ha
    rfl
  have h1 : nmodelsOf t = 1 :=
    nmodels_const_one t (by rw [ht]; simpa using hne) hmodels
  rw [tofileLines_single t h1, List.filterMap_append, filterMap_writeBlock]
  have hend : ([OutLine.endLine] : List OutLine).filterMap atomOf = [] := rfl
  rw [hend, List.append_nil, ht, List.map_map]
  clear hgo ht hmodels h1 hok hne
  induction lines with
  | nil => exact List.Forall₂.nil
  | cons l ls ih =>
    exact List.Forall₂.cons
      (fieldsMatch_of_wf l 1 (hwf l (List.mem_cons_self l ls)))
      (ih (fun l' h' => hwf l' (List.mem_cons_of_mem l h')))

/-- Witness for C6: the two concrete canonical atom lines round-trip. -/
theorem c6_roundtrip_witness :
    List.Forall₂ fieldsMatch
      ((tofileLines
        [{ forceAtom exL1 with model := 1 }, { forceAtom exL2 with model := 1 }]).filterMap
          atomOf)
      [exL1, exL2] :=
  c6_roundtrip [exL1, exL2]
    [{ forceAtom exL1 with model := 1 }, { forceAtom exL2 with model := 1 }]
    (by decide) (by decide) rfl
